import Mathlib

/-!
Shallow embedding of `fars_cleaner/datasets.py` (class `FARSFetcher`):
the registry loader, hash verifier, downloader, archive extractor and the
fetch orchestration (`_get_file`, `fetch_all`, `fetch_subset`,
`fetch_single`), together with theorems settling the specification claims.

Bytes are modelled as `List Nat` (each entry a byte value), file systems as
association lists from path strings to byte lists, and the external
collaborators (urllib3, zipfile) as explicit parameters: the remote side is
a table from URL to the final HTTP response after redirects, and the zip
library is a function from archive bytes to an optional member list.
-/

set_option maxHeartbeats 1000000

namespace Fars

/-! ### SHA-256 (model of the `hashlib.sha256` collaborator) -/

/-- The 32-bit modulus used throughout SHA-256 arithmetic. -/
def M32 : Nat := 4294967296

/-- Rotate a 32-bit word right by `n` bits. -/
def rotr (n x : Nat) : Nat := ((x >>> n) ||| (x <<< (32 - n))) % M32

def bsig0 (x : Nat) : Nat := (rotr 2 x) ^^^ (rotr 13 x) ^^^ (rotr 22 x)

def bsig1 (x : Nat) : Nat := (rotr 6 x) ^^^ (rotr 11 x) ^^^ (rotr 25 x)

def ssig0 (x : Nat) : Nat := (rotr 7 x) ^^^ (rotr 18 x) ^^^ (x >>> 3)

def ssig1 (x : Nat) : Nat := (rotr 17 x) ^^^ (rotr 19 x) ^^^ (x >>> 10)

/-- The 64 SHA-256 round constants (the FIPS 180-4 table, in decimal). -/
def K256 : List Nat :=
  [1116352408, 1899447441, 3049323471, 3921009573, 961987163, 1508970993,
   2453635748, 2870763221, 3624381080, 310598401, 607225278, 1426881987,
   1925078388, 2162078206, 2614888103, 3248222580, 3835390401, 4022224774,
   264347078, 604807628, 770255983, 1249150122, 1555081692, 1996064986,
   2554220882, 2821834349, 2952996808, 3210313671, 3336571891, 3584528711,
   113926993, 338241895, 666307205, 773529912, 1294757372, 1396182291,
   1695183700, 1986661051, 2177026350, 2456956037, 2730485921, 2820302411,
   3259730800, 3345764771, 3516065817, 3600352804, 4094571909, 275423344,
   430227734, 506948616, 659060556, 883997877, 958139571, 1322822218,
   1537002063, 1747873779, 1955562222, 2024104815, 2227730452, 2361852424,
   2428436474, 2756734187, 3204031479, 3329325298]

/-- The eight 32-bit words of a SHA-256 hash state. -/
structure SHAState where
  h0 : Nat
  h1 : Nat
  h2 : Nat
  h3 : Nat
  h4 : Nat
  h5 : Nat
  h6 : Nat
  h7 : Nat
deriving DecidableEq

/-- The SHA-256 initial hash value (the FIPS 180-4 words, in decimal). -/
def initState : SHAState :=
  ⟨1779033703, 3144134277, 1013904242, 2773480762,
   1359893119, 2600822924, 528734635, 1541459225⟩

/-- Extend 16 message words to the 64-entry message schedule. -/
def msgSchedule (w16 : List Nat) : List Nat :=
  ((List.range 48).foldl (fun (a : Array Nat) i =>
    a.push ((ssig1 (a.getD (i + 14) 0) + a.getD (i + 9) 0
      + ssig0 (a.getD (i + 1) 0) + a.getD i 0) % M32)) w16.toArray).toList

/-- One round of the SHA-256 compression function; `kw` pairs a schedule
word with its round constant. -/
def roundStep (st : SHAState) (kw : Nat × Nat) : SHAState :=
  let ch := (st.h4 &&& st.h5) ^^^ ((st.h4 ^^^ (M32 - 1)) &&& st.h6)
  let maj := (st.h0 &&& st.h1) ^^^ (st.h0 &&& st.h2) ^^^ (st.h1 &&& st.h2)
  let t1 := (st.h7 + bsig1 st.h4 + ch + kw.2 + kw.1) % M32
  let t2 := (bsig0 st.h0 + maj) % M32
  ⟨(t1 + t2) % M32, st.h0, st.h1, st.h2, (st.h3 + t1) % M32, st.h4, st.h5, st.h6⟩

/-- SHA-256 compression of one 16-word block into the running state. -/
def compress (st : SHAState) (w16 : List Nat) : SHAState :=
  let r := ((msgSchedule w16).zip K256).foldl roundStep st
  ⟨(st.h0 + r.h0) % M32, (st.h1 + r.h1) % M32, (st.h2 + r.h2) % M32, (st.h3 + r.h3) % M32,
   (st.h4 + r.h4) % M32, (st.h5 + r.h5) % M32, (st.h6 + r.h6) % M32, (st.h7 + r.h7) % M32⟩

/-- Pack bytes into 32-bit big-endian words, four bytes per word. -/
def toW : List Nat → List Nat
  | b0 :: b1 :: b2 :: b3 :: rest => (((b0 * 256 + b1) * 256 + b2) * 256 + b3) :: toW rest
  | _ => []

/-- Fuel-driven worker for `chunkList`; the fuel is an upper bound on the
list length, so the unreachable fuel-exhausted branch returns `[]`. -/
def chunkFuel {α : Type} (n : Nat) : Nat → List α → List (List α)
  | _, [] => []
  | 0, _ :: _ => []
  | fuel + 1, c :: cs =>
    if n = 0 then [] else (c :: cs).take n :: chunkFuel n fuel (cs.drop (n - 1))

/-- Split a list into consecutive chunks of `n` elements (the final chunk
may be shorter); returns `[]` when `n = 0`.  This models the successive
`f.read(n)` calls of the verifier's read loop. -/
def chunkList {α : Type} (n : Nat) (l : List α) : List (List α) :=
  chunkFuel n l.length l

/-- The eight big-endian length bytes appended by SHA-256 padding,
encoding the message length in bits. -/
def lenBytes (L : Nat) : List Nat :=
  (List.range 8).map (fun i => ((8 * L) >>> (8 * (7 - i))) % 256)

/-- SHA-256 padding: `0x80`, zero bytes to 56 mod 64, then the bit length. -/
def padMsg (msg : List Nat) : List Nat :=
  let L := msg.length
  msg ++ [128] ++ List.replicate ((119 - L % 64) % 64) 0 ++ lenBytes L

/-- The eight output words of SHA-256 applied to a byte list. -/
def sha256words (msg : List Nat) : List Nat :=
  let st := (chunkList 64 (padMsg msg)).foldl (fun s b => compress s (toW b)) initState
  [st.h0, st.h1, st.h2, st.h3, st.h4, st.h5, st.h6, st.h7]

/-- The lowercase hexadecimal digit for a value below 16. -/
def hexChar (n : Nat) : Char :=
  if n < 10 then Char.ofNat (48 + n) else Char.ofNat (87 + n)

/-- The eight lowercase hex characters of a 32-bit word, most significant
nibble first. -/
def toHex8 (x : Nat) : List Char :=
  (List.range 8).map (fun i => hexChar ((x >>> (28 - 4 * i)) % 16))

/-- The lowercase hexadecimal SHA-256 digest of a byte list, as produced by
`hashlib.sha256(data).hexdigest()`. -/
def sha256hex (msg : List Nat) : String :=
  ⟨(sha256words msg).foldr (fun w acc => toHex8 w ++ acc) []⟩

/-- The sixteen lowercase hexadecimal digit characters. -/
def hexDigits : List Char := "0123456789abcdef".data

/-! ### Association lists: the local file system and Python dictionaries -/

/-- Look up a key in an association list (Python `d[k]` / `k in d`). -/
def alGet {α : Type} : List (String × α) → String → Option α
  | [], _ => none
  | (k', v) :: t, k => if k' = k then some v else alGet t k

/-- Set a key in an association list, replacing in place on a repeated key
exactly as a Python `dict` assignment does (insertion position is kept). -/
def alSet {α : Type} : List (String × α) → String → α → List (String × α)
  | [], k, v => [(k, v)]
  | (k', v') :: t, k, v => if k' = k then (k, v) :: t else (k', v') :: alSet t k v

/-- A local file system: a table from path to file bytes. -/
abbrev FS : Type := List (String × List Nat)

/-- The bytes stored at `path`, or `none` when no file exists there. -/
def getFS (fs : FS) (path : String) : Option (List Nat) := alGet fs path

/-- Write `bytes` at `path` (`Path.exists` becomes true afterwards). -/
def setFS (fs : FS) (path : String) (bytes : List Nat) : FS := alSet fs path bytes

/-- Python `Path.exists()` on the modelled file system. -/
def existsFS (fs : FS) (path : String) : Bool := (getFS fs path).isSome

/-- Python `pathlib`'s `/` operator on string paths. -/
def joinPath (a b : String) : String := a ++ "/" ++ b

/-- The final HTTP response the remote side yields for a URL once
redirects have been followed. -/
structure Response where
  status : Nat
  body : List Nat
deriving DecidableEq

/-- The external collaborators of the fetcher: urllib3's view of the
network (URL to final response; an absent URL is an unreachable host) and
zipfile's reading of archive bytes (`none` is a corrupt archive, `some`
the member name/data pairs). -/
structure World where
  remote : List (String × Response)
  unzip : List Nat → Option (List (String × List Nat))

/-! ### Python string helpers used by the registry parser -/

/-- The characters Python's `str.strip()` / `str.split()` treat as
whitespace (the ASCII ones; the registry file is ASCII). -/
def isPySpace (c : Char) : Bool :=
  c = ' ' || c = '\t' || c = '\n' || c = '\x0d' || c = '\x0b' || c = '\x0c'

/-- Python `str.strip()`: remove leading and trailing whitespace. -/
def stripWs (l : List Char) : List Char :=
  ((l.dropWhile isPySpace).reverse.dropWhile isPySpace).reverse

/-- Fuel-driven worker for `splitWsCs`; fuel bounds the list length. -/
def splitWsFuel : Nat → List Char → List (List Char)
  | _, [] => []
  | 0, _ :: _ => []
  | fuel + 1, c :: cs =>
    if isPySpace c then splitWsFuel fuel cs
    else (c :: cs.takeWhile (fun x => !isPySpace x))
      :: splitWsFuel fuel (cs.dropWhile (fun x => !isPySpace x))

/-- Python `str.split()` with no argument: split on whitespace runs,
producing no empty fields. -/
def splitWsCs (l : List Char) : List (List Char) := splitWsFuel l.length l

/-- Python's `sub in s` substring test (worker over character lists). -/
def leadsList : List Char → List Char → Bool
  | [], _ => true
  | _ :: _, [] => false
  | a :: as, b :: bs => a = b && leadsList as bs

/-- Whether `s` begins with the characters of `pre`. -/
def strLeads (pre s : String) : Bool := leadsList pre.data s.data

/-- Python's `sub in s` substring containment on character lists. -/
def containsSub (sub : List Char) : List Char → Bool
  | [] => leadsList sub []
  | c :: cs => leadsList sub (c :: cs) || containsSub sub cs

/-! ### The registry loader (`FARSFetcher._load_registry`) -/

/-- One line of the registry file: `some (filename, hash, url)` when the
line is non-blank and has at least three whitespace-separated fields
(extra fields are ignored), `none` otherwise. -/
def parseLine (line : List Char) : Option (String × String × String) :=
  let s := stripWs line
  if s.isEmpty then none
  else
    match splitWsCs s with
    | f :: h :: u :: _ => some (⟨f⟩, ⟨h⟩, ⟨u⟩)
    | _ => none

/-- `FARSFetcher._load_registry` applied to the registry file's text:
fold the parsed lines into a dictionary from filename to (hash, url). -/
def load_registry (text : String) : List (String × (String × String)) :=
  (text.data.splitOn '\n').foldl (fun d line =>
    match parseLine line with
    | some (f, h, u) => alSet d f (h, u)
    | none => d) []

/-- The well-formed registry entries in file order, as the specification
describes them: one per non-blank line with at least three fields. -/
def wellFormedEntries (text : String) : List (String × (String × String)) :=
  (text.data.splitOn '\n').filterMap (fun line =>
    (parseLine line).map (fun p => (p.1, p.2)))

/-! ### The hash verifier (`FARSFetcher._verify_hash`) -/

/-- `FARSFetcher._verify_hash`: read the file at `file_path` in 4096-byte
chunks, feed each chunk to the running SHA-256 object, and compare the
hex digest with `expected_hash` by string equality.  `Except.error ()` is
the `IOError` raised when the file cannot be opened. -/
def verify_hash (fs : FS) (file_path expected_hash : String) : Except Unit Bool :=
  match getFS fs file_path with
  | none => .error ()
  | some bytes =>
    let fed := (chunkList 4096 bytes).foldl (fun acc c => acc ++ c) []
    .ok (sha256hex fed == expected_hash)

/-! ### The downloader (`FARSFetcher._download_file`) -/

/-- The errors the fetcher's operations can raise. -/
inductive FetchError where
  /-- `FileNotFoundError`: the filename is absent from the registry. -/
  | fileNotFound (msg : String)
  /-- The GET request itself failed (unreachable host, timeout). -/
  | networkError (url : String)
  /-- The `Exception` raised on a response status other than 200. -/
  | httpError (status : Nat)
  /-- The `ValueError` raised on a post-download hash mismatch. -/
  | hashMismatch (filename : String)
  /-- An `IOError` reading a local file. -/
  | ioError (path : String)
  /-- `zipfile.BadZipFile`: the archive cannot be opened or parsed. -/
  | archiveCorrupt (path : String)
deriving DecidableEq

/-- `FARSFetcher._download_file`: issue a GET for `url` (redirects
followed by urllib3), raise on an unreachable host or on a response
status other than 200, and otherwise stream the body to `target_path`. -/
def download_file (w : World) (fs : FS) (url target_path : String) :
    FS × Except FetchError Unit :=
  match alGet w.remote url with
  | none => (fs, .error (.networkError url))
  | some resp =>
    if resp.status ≠ 200 then (fs, .error (.httpError resp.status))
    else (setFS fs target_path resp.body, .ok ())

/-! ### The archive extractor (`FARSFetcher._extract_zip`) -/

/-- The `os.walk` step of `_extract_zip`: every file path currently lying
under `extract_dir`. -/
def walkFiles (fs : FS) (extract_dir : String) : List String :=
  (fs.map Prod.fst).filter (fun p => strLeads (extract_dir ++ "/") p)

/-- `FARSFetcher._extract_zip`: unpack every member of the archive at
`zip_path` into `extract_dir`, then walk `extract_dir` and return every
file path found there. -/
def extract_zip (w : World) (fs : FS) (zip_path extract_dir : String) :
    Except FetchError (FS × List String) :=
  match getFS fs zip_path with
  | none => .error (.ioError zip_path)
  | some bytes =>
    match w.unzip bytes with
    | none => .error (.archiveCorrupt zip_path)
    | some members =>
      let fs' := members.foldl (fun a m => setFS a (joinPath extract_dir m.1) m.2) fs
      .ok (fs', walkFiles fs' extract_dir)

/-! ### The fetch orchestrator (`FARSFetcher`) -/

/-- The state of a `FARSFetcher` instance after construction: the resolved
cache root, the `check_hash` flag and the loaded registry dictionary. -/
structure FARSFetcher where
  cache_path : String
  check_hash : Bool
  registry_dict : List (String × (String × String))

/-- The `download_needed` flag computed at the top of
`FARSFetcher._get_file`: `false` exactly when the file already exists,
hash checking is on, and the existing file verifies. -/
def FARSFetcher.download_needed (f : FARSFetcher) (fs : FS)
    (file_path file_hash : String) : Bool :=
  if existsFS fs file_path && f.check_hash then
    match verify_hash fs file_path file_hash with
    | .ok true => false
    | _ => true
  else true

/-- The outcome of `FARSFetcher._get_file`: the file system afterwards,
how many times `_download_file` was invoked, and the returned path or the
raised error. -/
structure GetFileResult where
  fs : FS
  downloads : Nat
  result : Except FetchError String

/-- `FARSFetcher._get_file`: resolve `filename` through the registry,
skip the download when a cached copy verifies, otherwise download and
(when `check_hash` is set) verify the fresh copy, raising `ValueError` on
a mismatch. -/
def FARSFetcher.get_file (f : FARSFetcher) (w : World) (fs : FS)
    (filename : String) : GetFileResult :=
  match alGet f.registry_dict filename with
  | none => ⟨fs, 0, .error (.fileNotFound (filename ++ ": File not found in registry."))⟩
  | some (file_hash, url) =>
    let file_path := joinPath f.cache_path filename
    if f.download_needed fs file_path file_hash then
      match download_file w fs url file_path with
      | (fs', .error e) => ⟨fs', 1, .error e⟩
      | (fs', .ok ()) =>
        if f.check_hash then
          match verify_hash fs' file_path file_hash with
          | .error () => ⟨fs', 1, .error (.ioError file_path)⟩
          | .ok true => ⟨fs', 1, .ok file_path⟩
          | .ok false => ⟨fs', 1, .error (.hashMismatch filename)⟩
        else ⟨fs', 1, .ok file_path⟩
    else ⟨fs, 0, .ok file_path⟩

/-- The extraction directory `_get_file`'s callers derive for an archive:
`cache_path/<filename minus its last four characters>.unzip`. -/
def FARSFetcher.extractDirOf (f : FARSFetcher) (filename : String) : String :=
  joinPath f.cache_path (filename.dropRight 4 ++ ".unzip")

/-- The loop body of `FARSFetcher.fetch_all` over the remaining registry
entries, carrying the `unzipped` accumulator; every per-entry failure is
printed and swallowed, and the loop continues. -/
def FARSFetcher.fetch_all_aux (f : FARSFetcher) (w : World) :
    List (String × (String × String)) → FS → List (String × List String) →
    FS × List (String × List String)
  | [], fs, unzipped => (fs, unzipped)
  | (filename, _) :: rest, fs, unzipped =>
    let r := f.get_file w fs filename
    if containsSub "dict".data filename.data then
      f.fetch_all_aux w rest r.fs unzipped
    else
      match r.result with
      | .error _ => f.fetch_all_aux w rest r.fs unzipped
      | .ok file_path =>
        match extract_zip w r.fs file_path (f.extractDirOf filename) with
        | .error _ => f.fetch_all_aux w rest r.fs unzipped
        | .ok (fs', files) => f.fetch_all_aux w rest fs' (unzipped ++ [(filename, files)])

/-- `FARSFetcher.fetch_all`: iterate over every registry entry, fetching
(and, except for `dict` artifacts, extracting) each one, catching and
printing any per-entry exception before moving on. -/
def FARSFetcher.fetch_all (f : FARSFetcher) (w : World) (fs : FS) :
    FS × List (String × List String) :=
  f.fetch_all_aux w f.registry_dict fs []

/-- `FARSFetcher.fetch_single`: derive `"{year}.zip"`, fetch it, extract
it beside the cache file, and return the singleton dictionary from the
year to the extracted file list; a registry miss is re-raised with a new
message and every other exception propagates. -/
def FARSFetcher.fetch_single (f : FARSFetcher) (w : World) (fs : FS) (year : Nat) :
    FS × Except FetchError (List (Nat × List String)) :=
  let filename := toString year ++ ".zip"
  let r := f.get_file w fs filename
  match r.result with
  | .error (.fileNotFound _) =>
    (r.fs, .error (.fileNotFound (filename ++ ": File could not be found in FARS registry.")))
  | .error e => (r.fs, .error e)
  | .ok file_path =>
    match extract_zip w r.fs file_path (f.extractDirOf filename) with
    | .error e => (r.fs, .error e)
    | .ok (fs', files) => (fs', .ok [(year, files)])

/-- The years `range(start_yr, end_yr + 1)` iterates over. -/
def yearRange (start_yr end_yr : Nat) : List Nat :=
  List.range' start_yr (end_yr + 1 - start_yr)

/-- The loop of `FARSFetcher.fetch_subset`, carrying the `unzipped`
accumulator; there is no exception handler, so the first failing year's
error propagates and the remaining years are never processed. -/
def FARSFetcher.fetch_subset_aux (f : FARSFetcher) (w : World) :
    List Nat → FS → List (Nat × List (Nat × List String)) →
    FS × Except FetchError (List (Nat × List (Nat × List String)))
  | [], fs, acc => (fs, .ok acc)
  | yr :: rest, fs, acc =>
    match f.fetch_single w fs yr with
    | (fs', .error e) => (fs', .error e)
    | (fs', .ok v) => f.fetch_subset_aux w rest fs' (acc ++ [(yr, v)])

/-- `FARSFetcher.fetch_subset`: run `fetch_single` for every year from
`start_yr` to `end_yr` inclusive, storing each year's result under that
year. -/
def FARSFetcher.fetch_subset (f : FARSFetcher) (w : World) (fs : FS)
    (start_yr end_yr : Nat) :
    FS × Except FetchError (List (Nat × List (Nat × List String))) :=
  f.fetch_subset_aux w (yearRange start_yr end_yr) fs []

/-! ### Concrete scenarios used by witnesses and counterexamples -/

/-- A fetcher instance with hash checking disabled and one registry entry. -/
def exNoHash : FARSFetcher := ⟨"cache", false, [("a.zip", ("h", "u"))]⟩

/-- A world where URL `"u"` serves a two-byte body with status 200. -/
def exWorldA : World := ⟨[("u", ⟨200, [2]⟩)], fun _ => none⟩

/-- A file system already holding a cached copy of `a.zip`. -/
def exFSA : FS := [("cache/a.zip", [7])]

/-- A fetcher with hash checking enabled whose registry hash matches the
cached bytes `[7]`. -/
def exHash : FARSFetcher := ⟨"cache", true, [("a.zip", (sha256hex [7], "u"))]⟩

/-- A fetcher with hash checking enabled whose two-character registry hash
`"xx"` cannot equal any 64-character digest. -/
def exBadHash : FARSFetcher := ⟨"cache", true, [("a.zip", ("xx", "u"))]⟩

/-- A fetcher whose registry has an entry with an unreachable URL followed
by a working entry. -/
def exTwo : FARSFetcher :=
  ⟨"cache", false, [("bad.zip", ("h1", "u1")), ("good.zip", ("h2", "u2"))]⟩

/-- The world for `exTwo`: only `"u2"` is reachable, and every archive
holds the single member `a.csv`. -/
def exWorldTwo : World := ⟨[("u2", ⟨200, [7]⟩)], fun _ => some [("a.csv", [9])]⟩

/-- The fetcher for the year-range scenarios: only 2001 is registered. -/
def exYear : FARSFetcher := ⟨"cache", false, [("2001.zip", ("h", "u"))]⟩

/-- The world for `exYear`: the archive holds the single member `x`. -/
def exWorldYear : World := ⟨[("u", ⟨200, [7]⟩)], fun _ => some [("x", [1])]⟩

/-! ### Helper lemmas -/

theorem alGet_alSet {α : Type} (d : List (String × α)) (k k' : String) (v : α) :
    alGet (alSet d k v) k' = if k = k' then some v else alGet d k' := by
  induction d with
  | nil => simp [alSet, alGet]
  | cons e t ih =>
    obtain ⟨ek, ev⟩ := e
    by_cases hek : ek = k
    · subst hek
      by_cases hkk' : ek = k' <;> simp [alSet, alGet, hkk']
    · by_cases hek' : ek = k' <;> by_cases hkk' : k = k' <;>
        simp_all [alSet, alGet, hek, hek', hkk']

theorem getFS_setFS (fs : FS) (p q : String) (b : List Nat) :
    getFS (setFS fs p b) q = if p = q then some b else getFS fs q :=
  alGet_alSet fs p q b

theorem getFS_setFS_self (fs : FS) (p : String) (b : List Nat) :
    getFS (setFS fs p b) p = some b := by
  simp [getFS_setFS]

theorem chunkFuel_foldl_append {α : Type} (n : Nat) (hn : 0 < n) :
    ∀ (fuel : Nat) (l acc : List α), l.length ≤ fuel →
      (chunkFuel n fuel l).foldl (fun a c => a ++ c) acc = acc ++ l := by
  obtain ⟨m, rfl⟩ : ∃ m, n = m + 1 := ⟨n - 1, (Nat.succ_pred_eq_of_pos hn).symm⟩
  intro fuel
  induction fuel with
  | zero =>
    intro l acc h
    cases l with
    | nil => simp [chunkFuel]
    | cons c cs => simp at h
  | succ fuel ih =>
    intro l acc h
    cases l with
    | nil => simp [chunkFuel]
    | cons c cs =>
      simp only [chunkFuel, if_neg (Nat.succ_ne_zero m), List.foldl_cons]
      rw [ih (cs.drop (m + 1 - 1)) _
        (by simp only [List.length_drop]; simp only [List.length_cons] at h; omega)]
      simp [List.append_assoc, List.take_append_drop]

theorem verify_hash_some (fs : FS) (p h : String) (b : List Nat)
    (hb : getFS fs p = some b) :
    verify_hash fs p h = .ok (sha256hex b == h) := by
  simp only [verify_hash, hb, chunkList]
  rw [chunkFuel_foldl_append 4096 (by omega) b.length b [] le_rfl]
  simp

theorem verify_hash_none (fs : FS) (p h : String) (hb : getFS fs p = none) :
    verify_hash fs p h = .error () := by
  simp [verify_hash, hb]

theorem sha256hex_length (m : List Nat) : (sha256hex m).length = 64 := by
  simp [sha256hex, sha256words, String.length, toHex8]

theorem hexChar_mem : ∀ m, m < 16 → hexChar m ∈ hexDigits := by decide

theorem toHex8_mem (x : Nat) (c : Char) (hc : c ∈ toHex8 x) : c ∈ hexDigits := by
  simp only [toHex8, List.mem_map, List.mem_range] at hc
  obtain ⟨i, _, rfl⟩ := hc
  exact hexChar_mem _ (Nat.mod_lt _ (by omega))

theorem sha256hex_chars (m : List Nat) : ∀ c ∈ (sha256hex m).data, c ∈ hexDigits := by
  intro c hc
  simp only [sha256hex, sha256words, List.foldr] at hc
  rcases List.mem_append.mp hc with h | hc
  · exact toHex8_mem _ _ h
  rcases List.mem_append.mp hc with h | hc
  · exact toHex8_mem _ _ h
  rcases List.mem_append.mp hc with h | hc
  · exact toHex8_mem _ _ h
  rcases List.mem_append.mp hc with h | hc
  · exact toHex8_mem _ _ h
  rcases List.mem_append.mp hc with h | hc
  · exact toHex8_mem _ _ h
  rcases List.mem_append.mp hc with h | hc
  · exact toHex8_mem _ _ h
  rcases List.mem_append.mp hc with h | hc
  · exact toHex8_mem _ _ h
  rcases List.mem_append.mp hc with h | hc
  · exact toHex8_mem _ _ h
  · simp at hc

theorem load_registry_foldl (text : String) :
    load_registry text
      = (wellFormedEntries text).foldl (fun d e => alSet d e.1 e.2) [] := by
  suffices h : ∀ (lines : List (List Char)) (d : List (String × (String × String))),
      lines.foldl (fun d line =>
        match parseLine line with
        | some (f, hh, u) => alSet d f (hh, u)
        | none => d) d
        = (lines.filterMap (fun line => (parseLine line).map (fun p => (p.1, p.2)))).foldl
            (fun d e => alSet d e.1 e.2) d by
    exact h (text.data.splitOn '\n') []
  intro lines
  induction lines with
  | nil => intro d; rfl
  | cons line rest ih =>
    intro d
    cases hp : parseLine line with
    | none => simp [List.foldl_cons, hp, ih]
    | some p =>
      obtain ⟨pf, ph, pu⟩ := p
      simp [List.foldl_cons, hp, ih]

theorem alGet_foldl_alSet {α : Type} :
    ∀ (es : List (String × α)) (d : List (String × α)) (k : String),
      alGet (es.foldl (fun d e => alSet d e.1 e.2) d) k
        = ((es.reverse.find? (fun e => e.1 == k)).map Prod.snd).orElse
            (fun _ => alGet d k) := by
  intro es
  induction es with
  | nil => intro d k; simp
  | cons e t ih =>
    intro d k
    rw [List.foldl_cons, ih]
    cases hf : t.reverse.find? (fun e => e.1 == k) with
    | some x =>
      simp [List.reverse_cons, List.find?_append, hf, Option.orElse, Option.or]
    | none =>
      by_cases hek : e.1 = k
      · have hbeq : (e.1 == k) = true := by simpa using hek
        simp [List.reverse_cons, List.find?_append, hf, List.find?, hbeq,
          Option.orElse, Option.or, alGet_alSet, hek]
      · have hbeq : (e.1 == k) = false := by simpa using hek
        simp [List.reverse_cons, List.find?_append, hf, List.find?, hbeq,
          Option.orElse, Option.or, alGet_alSet, hek]

theorem walkFiles_mem (fs : FS) (dir p : String) (hp : p ∈ walkFiles fs dir) :
    strLeads (dir ++ "/") p = true :=
  (List.mem_filter.mp hp).2

theorem extract_zip_ok_walk (w : World) (fs : FS) (zp dir : String) (fs2 : FS)
    (files : List String) (h : extract_zip w fs zp dir = .ok (fs2, files)) :
    files = walkFiles fs2 dir := by
  simp only [extract_zip] at h
  cases hg : getFS fs zp with
  | none => simp [hg] at h
  | some bytes =>
    simp only [hg] at h
    cases hu : w.unzip bytes with
    | none => simp [hu] at h
    | some members =>
      simp only [hu, Except.ok.injEq, Prod.mk.injEq] at h
      obtain ⟨h1, h2⟩ := h
      rw [← h1, ← h2]

theorem download_file_error_shape (w : World) (fs : FS) (url tp : String)
    (fs' : FS) (e : FetchError)
    (h : download_file w fs url tp = (fs', .error e)) :
    fs' = fs ∧ (e = .networkError url ∨ ∃ s, e = .httpError s ∧ s ≠ 200) := by
  simp only [download_file] at h
  cases hr : alGet w.remote url with
  | none =>
    simp only [hr, Prod.mk.injEq, Except.error.injEq] at h
    exact ⟨h.1.symm, .inl h.2.symm⟩
  | some resp =>
    by_cases hs : resp.status = 200
    · simp [hr, hs] at h
    · simp only [hr, if_pos hs, Prod.mk.injEq, Except.error.injEq] at h
      exact ⟨h.1.symm, .inr ⟨resp.status, h.2.symm, hs⟩⟩

theorem download_needed_of_not_check (f : FARSFetcher) (fs : FS) (fp fh : String)
    (h : f.check_hash = false) : f.download_needed fs fp fh = true := by
  simp [FARSFetcher.download_needed, h]

theorem download_needed_false_of_match (f : FARSFetcher) (fs : FS) (fp fh : String)
    (hch : f.check_hash = true) (b : List Nat) (hb : getFS fs fp = some b)
    (hm : sha256hex b = fh) : f.download_needed fs fp fh = false := by
  have hv : verify_hash fs fp fh = .ok true := by
    rw [verify_hash_some fs fp fh b hb, hm]
    simp
  simp [FARSFetcher.download_needed, existsFS, hb, hch, hv]

theorem get_file_cache_hit (f : FARSFetcher) (w : World) (fs : FS)
    (filename fh url : String)
    (hreg : alGet f.registry_dict filename = some (fh, url))
    (hdn : f.download_needed fs (joinPath f.cache_path filename) fh = false) :
    f.get_file w fs filename = ⟨fs, 0, .ok (joinPath f.cache_path filename)⟩ := by
  simp [FARSFetcher.get_file, hreg, hdn]


/-! ### Claim theorems -/

/-- Claim C6: for every registry text, the loader's lookup at any filename
yields the (hash, url) pair of the last well-formed line whose first field
is that filename (last-write-wins), and its key set is exactly the set of
first fields of the well-formed lines; blank and short lines are skipped
without aborting the load (the loader folds exactly the well-formed
entries). -/
theorem load_registry_keyset_last_wins :
    ∀ (text k : String),
      alGet (load_registry text) k
        = ((wellFormedEntries text).reverse.find? (fun e => e.1 == k)).map Prod.snd
      ∧ ((alGet (load_registry text) k).isSome = true
          ↔ k ∈ (wellFormedEntries text).map Prod.fst) := by
  intro text k
  have h2 : alGet (load_registry text) k
      = ((wellFormedEntries text).reverse.find? (fun e => e.1 == k)).map Prod.snd := by
    rw [load_registry_foldl, alGet_foldl_alSet]
    cases (wellFormedEntries text).reverse.find? (fun e => e.1 == k) <;>
      simp [Option.orElse, Option.or, alGet]
  refine ⟨h2, ?_⟩
  rw [h2, Option.isSome_map']
  rw [show ((wellFormedEntries text).reverse.find? (fun e => e.1 == k)).isSome = true
        ↔ ∃ x, x ∈ (wellFormedEntries text).reverse ∧ (x.1 == k) = true from
      List.find?_isSome]
  constructor
  · rintro ⟨e, he, hp⟩
    exact List.mem_map.mpr ⟨e, List.mem_reverse.mp he, by simpa using hp⟩
  · intro hm
    obtain ⟨e, he, hk⟩ := List.mem_map.mp hm
    exact ⟨e, List.mem_reverse.mpr he, by simpa using hk⟩

/-- Claim C7: `_verify_hash` streams the file through SHA-256 in 4096-byte
chunks and compares the digest with `expected_hash` by string equality:
it returns `ok true` exactly when the lowercase hexadecimal digest of the
file's bytes equals `expected_hash` character for character, `ok false`
(a boolean, not an error) exactly on mismatch, and a distinct error
exactly when the file cannot be opened; the digest is always 64 lowercase
hexadecimal characters. -/
theorem verify_hash_spec :
    ∀ (fs : FS) (file_path expected_hash : String),
      (∀ b, getFS fs file_path = some b →
        (verify_hash fs file_path expected_hash = .ok true
          ↔ sha256hex b = expected_hash)
        ∧ (verify_hash fs file_path expected_hash = .ok false
          ↔ sha256hex b ≠ expected_hash)
        ∧ (sha256hex b).length = 64
        ∧ (∀ c ∈ (sha256hex b).data, c ∈ hexDigits))
      ∧ (getFS fs file_path = none →
          verify_hash fs file_path expected_hash = .error ()) := by
  intro fs p h
  refine ⟨fun b hb => ?_, fun hn => verify_hash_none fs p h hn⟩
  have hv := verify_hash_some fs p h b hb
  rw [hv]
  refine ⟨?_, ?_, sha256hex_length b, sha256hex_chars b⟩
  · simp
  · simp

/-- Witness for C7: on a file holding bytes `[7]` and the matching
digest, verification succeeds with `ok true`. -/
theorem verify_hash_spec_witness :
    verify_hash exFSA "cache/a.zip" (sha256hex [7]) = .ok true :=
  ((verify_hash_spec exFSA "cache/a.zip" (sha256hex [7])).1 [7] rfl).1.mpr rfl

/-- Claim C4 counterexample: status 206 is a 2xx success status, but the
downloader raises `HTTP Error: 206` instead of accepting the body. -/
theorem download_file_status206_counterexample :
    (200 ≤ 206 ∧ 206 < 300)
    ∧ download_file ⟨[("u", ⟨206, [1]⟩)], fun _ => none⟩ [] "u" "t"
        = ([], .error (.httpError 206)) :=
  ⟨⟨by omega, by omega⟩, rfl⟩

/-- Claim C4 (amended): for a reachable URL, `_download_file` fails with
the HTTP-status error exactly when the response status (after redirects)
differs from 200 — including 2xx statuses other than 200 — and exactly
for a 200 response it streams the body to `target_path` and succeeds. -/
theorem download_file_status_spec :
    ∀ (w : World) (fs : FS) (url target_path : String) (resp : Response),
      alGet w.remote url = some resp →
      (resp.status ≠ 200 →
        download_file w fs url target_path = (fs, .error (.httpError resp.status)))
      ∧ (resp.status = 200 →
        download_file w fs url target_path = (setFS fs target_path resp.body, .ok ())
        ∧ getFS (setFS fs target_path resp.body) target_path = some resp.body) := by
  intro w fs url tp resp hrem
  constructor
  · intro hne
    simp [download_file, hrem, hne]
  · intro h200
    exact ⟨by simp [download_file, hrem, h200], getFS_setFS_self fs tp resp.body⟩

/-- Witness for C4 at a concrete 200 response. -/
theorem download_file_status_spec_witness :
    download_file exWorldA [] "u" "t" = (setFS [] "t" [2], .ok ())
    ∧ getFS (setFS [] "t" [2]) "t" = some [2] :=
  (download_file_status_spec exWorldA [] "u" "t" ⟨200, [2]⟩ rfl).2 rfl

/-- Claim C1 counterexample: with hash checking disabled and a file
already present at the target cache path, `_get_file` still invokes the
downloader (once), contradicting "never invokes the Downloader". -/
theorem get_file_nohash_existing_counterexample :
    exNoHash.check_hash = false
    ∧ existsFS exFSA (joinPath exNoHash.cache_path "a.zip") = true
    ∧ (exNoHash.get_file exWorldA exFSA "a.zip").downloads = 1 :=
  ⟨rfl, rfl, rfl⟩

/-- Claim C1 (amended): with hash checking disabled, `_get_file` on a
registered filename always invokes `_download_file` exactly once — even
when a file already exists at the target cache path — never raises a
hash mismatch, and accepts a successfully downloaded file
unconditionally, returning the target path. -/
theorem get_file_nohash_always_downloads :
    ∀ (f : FARSFetcher) (w : World) (fs : FS) (filename fh url : String),
      f.check_hash = false →
      alGet f.registry_dict filename = some (fh, url) →
      (f.get_file w fs filename).downloads = 1
      ∧ (∀ n, (f.get_file w fs filename).result ≠ .error (.hashMismatch n))
      ∧ (∀ fs', download_file w fs url (joinPath f.cache_path filename) = (fs', .ok ()) →
          f.get_file w fs filename = ⟨fs', 1, .ok (joinPath f.cache_path filename)⟩) := by
  intro f w fs filename fh url hch hreg
  have hdn := download_needed_of_not_check f fs (joinPath f.cache_path filename) fh hch
  rcases hdl : download_file w fs url (joinPath f.cache_path filename) with ⟨fs', r⟩
  cases r with
  | error e =>
    obtain ⟨-, he⟩ := download_file_error_shape w fs url (joinPath f.cache_path filename) fs' e hdl
    refine ⟨?_, ?_, ?_⟩
    · simp [FARSFetcher.get_file, hreg, hdn, hdl]
    · intro n
      simp only [FARSFetcher.get_file, hreg, hdn, if_true, hdl]
      rcases he with rfl | ⟨s, rfl, -⟩ <;> simp
    · intro fs'' hdl'
      simp at hdl'
  | ok u =>
    cases u
    refine ⟨?_, ?_, ?_⟩
    · simp [FARSFetcher.get_file, hreg, hdn, hdl, hch]
    · intro n
      simp [FARSFetcher.get_file, hreg, hdn, hdl, hch]
    · intro fs'' hdl'
      have h1 : fs' = fs'' := by simpa using hdl'
      subst h1
      simp [FARSFetcher.get_file, hreg, hdn, hdl, hch]

/-- Witness for C1 (amended) at a concrete fetcher with an existing
cached file: the downloader runs once and its output is accepted. -/
theorem get_file_nohash_always_downloads_witness :
    (exNoHash.get_file exWorldA exFSA "a.zip").downloads = 1
    ∧ exNoHash.get_file exWorldA exFSA "a.zip"
        = ⟨setFS exFSA (joinPath exNoHash.cache_path "a.zip") [2], 1,
            .ok (joinPath exNoHash.cache_path "a.zip")⟩ := by
  have h := get_file_nohash_always_downloads exNoHash exWorldA exFSA "a.zip" "h" "u" rfl rfl
  exact ⟨h.1, h.2.2 _ rfl⟩

/-- Claim C5: with hash checking enabled, if a file already exists at
`cache_path/filename` whose SHA-256 digest equals the registry hash, then
`_get_file` performs no download and returns that path with the file
system untouched; moreover after any successful `_get_file` call the
immediately repeated call performs zero downloads (a cache hit), so two
successive calls perform at most one download. -/
theorem get_file_cache_hit_idempotent :
    (∀ (f : FARSFetcher) (w : World) (fs : FS) (filename fh url : String) (b : List Nat),
      f.check_hash = true →
      alGet f.registry_dict filename = some (fh, url) →
      getFS fs (joinPath f.cache_path filename) = some b →
      sha256hex b = fh →
      f.get_file w fs filename = ⟨fs, 0, .ok (joinPath f.cache_path filename)⟩)
    ∧ (∀ (f : FARSFetcher) (w : World) (fs : FS) (filename p : String),
      f.check_hash = true →
      (f.get_file w fs filename).result = .ok p →
      (f.get_file w (f.get_file w fs filename).fs filename).downloads = 0
      ∧ (f.get_file w fs filename).downloads
          + (f.get_file w (f.get_file w fs filename).fs filename).downloads ≤ 1) := by
  constructor
  · intro f w fs filename fh url b hch hreg hb hm
    exact get_file_cache_hit f w fs filename fh url hreg
      (download_needed_false_of_match f fs _ fh hch b hb hm)
  · intro f w fs filename p hch hok
    cases hreg : alGet f.registry_dict filename with
    | none => simp [FARSFetcher.get_file, hreg] at hok
    | some v =>
      obtain ⟨fh, url⟩ := v
      cases hdn : f.download_needed fs (joinPath f.cache_path filename) fh with
      | false =>
        have h1 : f.get_file w fs filename
            = ⟨fs, 0, .ok (joinPath f.cache_path filename)⟩ :=
          get_file_cache_hit f w fs filename fh url hreg hdn
        simp [h1]
      | true =>
        rcases hdl : download_file w fs url (joinPath f.cache_path filename) with ⟨fs', r⟩
        cases r with
        | error e => simp [FARSFetcher.get_file, hreg, hdn, hdl] at hok
        | ok u =>
          cases u
          cases hv : verify_hash fs' (joinPath f.cache_path filename) fh with
          | error e =>
            cases e
            simp [FARSFetcher.get_file, hreg, hdn, hdl, hch, hv] at hok
          | ok bv =>
            cases bv with
            | false => simp [FARSFetcher.get_file, hreg, hdn, hdl, hch, hv] at hok
            | true =>
              have h1 : f.get_file w fs filename
                  = ⟨fs', 1, .ok (joinPath f.cache_path filename)⟩ := by
                simp [FARSFetcher.get_file, hreg, hdn, hdl, hch, hv]
              have hex : existsFS fs' (joinPath f.cache_path filename) = true := by
                cases hg : getFS fs' (joinPath f.cache_path filename) with
                | none =>
                  rw [verify_hash_none fs' _ fh hg] at hv
                  cases hv
                | some bb => simp [existsFS, hg]
              have hdn2 : f.download_needed fs' (joinPath f.cache_path filename) fh = false := by
                simp [FARSFetcher.download_needed, hex, hch, hv]
              have h2 : f.get_file w fs' filename
                  = ⟨fs', 0, .ok (joinPath f.cache_path filename)⟩ :=
                get_file_cache_hit f w fs' filename fh url hreg hdn2
              simp [h1, h2]

/-- Witness for C5 at a concrete fetcher whose cached file's digest
matches the registry hash: the call is a cache hit. -/
theorem get_file_cache_hit_idempotent_witness :
    exHash.check_hash = true
    ∧ exHash.get_file exWorldA exFSA "a.zip"
        = ⟨exFSA, 0, .ok (joinPath exHash.cache_path "a.zip")⟩ :=
  ⟨rfl, get_file_cache_hit_idempotent.1 exHash exWorldA exFSA "a.zip"
    (sha256hex [7]) "u" [7] rfl rfl rfl rfl⟩

/-- Claim C9: with hash checking enabled, when `_get_file` performs a
fresh download (the `download_needed` flag is set) and the downloaded
body's digest still disagrees with the registry hash, the call raises the
hash-mismatch `ValueError` — propagated to the caller, with exactly one
download and no retry, and the mismatching file left in place. -/
theorem get_file_post_download_mismatch :
    ∀ (f : FARSFetcher) (w : World) (fs : FS) (filename fh url : String) (resp : Response),
      f.check_hash = true →
      alGet f.registry_dict filename = some (fh, url) →
      f.download_needed fs (joinPath f.cache_path filename) fh = true →
      alGet w.remote url = some resp →
      resp.status = 200 →
      sha256hex resp.body ≠ fh →
      f.get_file w fs filename
        = ⟨setFS fs (joinPath f.cache_path filename) resp.body, 1,
            .error (.hashMismatch filename)⟩ := by
  intro f w fs filename fh url resp hch hreg hdn hrem hst hne
  have hdl : download_file w fs url (joinPath f.cache_path filename)
      = (setFS fs (joinPath f.cache_path filename) resp.body, .ok ()) := by
    simp [download_file, hrem, hst]
  have hv : verify_hash (setFS fs (joinPath f.cache_path filename) resp.body)
      (joinPath f.cache_path filename) fh = .ok false := by
    rw [verify_hash_some _ _ _ resp.body (getFS_setFS_self fs _ resp.body)]
    simp [hne]
  simp [FARSFetcher.get_file, hreg, hdn, hdl, hch, hv]

/-- Witness for C9: downloading two bytes against the impossible
two-character registry hash `"xx"` raises the mismatch error. -/
theorem get_file_post_download_mismatch_witness :
    exBadHash.get_file exWorldA [] "a.zip"
      = ⟨setFS [] (joinPath exBadHash.cache_path "a.zip") [2], 1,
          .error (.hashMismatch "a.zip")⟩ := by
  refine get_file_post_download_mismatch exBadHash exWorldA [] "a.zip" "xx" "u"
    ⟨200, [2]⟩ rfl rfl rfl rfl rfl ?_
  intro h
  have h64 := sha256hex_length [2]
  rw [h] at h64
  exact absurd h64 (by decide)

theorem fetch_single_ok_shape (f : FARSFetcher) (w : World) (fs : FS) (year : Nat)
    (fs' : FS) (v : List (Nat × List String))
    (h : f.fetch_single w fs year = (fs', .ok v)) :
    ∃ files, v = [(year, files)]
      ∧ files = walkFiles fs' (f.extractDirOf (toString year ++ ".zip")) := by
  simp only [FARSFetcher.fetch_single] at h
  cases hr : (f.get_file w fs (toString year ++ ".zip")).result with
  | error e => cases e <;> simp [hr] at h
  | ok fp =>
    simp only [hr] at h
    cases hx : extract_zip w (f.get_file w fs (toString year ++ ".zip")).fs fp
        (f.extractDirOf (toString year ++ ".zip")) with
    | error e => simp [hx] at h
    | ok pr =>
      obtain ⟨fs2, files⟩ := pr
      have hwk := extract_zip_ok_walk w _ fp _ fs2 files hx
      simp only [hx, Prod.mk.injEq, Except.ok.injEq] at h
      obtain ⟨hfs2, hv⟩ := h
      exact ⟨files, hv.symm, by rw [hwk, hfs2]⟩

theorem fetch_subset_aux_ok_keys (f : FARSFetcher) (w : World) :
    ∀ (years : List Nat) (fs : FS) (acc : List (Nat × List (Nat × List String)))
      (fs' : FS) (m : List (Nat × List (Nat × List String))),
      f.fetch_subset_aux w years fs acc = (fs', .ok m) →
      m.map Prod.fst = acc.map Prod.fst ++ years := by
  intro years
  induction years with
  | nil =>
    intro fs acc fs' m h
    simp only [FARSFetcher.fetch_subset_aux, Prod.mk.injEq, Except.ok.injEq] at h
    obtain ⟨-, h2⟩ := h
    simp [← h2]
  | cons yr rest ih =>
    intro fs acc fs' m h
    simp only [FARSFetcher.fetch_subset_aux] at h
    cases hfs : f.fetch_single w fs yr with
    | mk fs1 r =>
      simp only [hfs] at h
      cases r with
      | error e => simp at h
      | ok v =>
        have h' : f.fetch_subset_aux w rest fs1 (acc ++ [(yr, v)]) = (fs', .ok m) := h
        have := ih fs1 (acc ++ [(yr, v)]) fs' m h'
        simpa using this

theorem fetch_subset_aux_shape (f : FARSFetcher) (w : World) :
    ∀ (years : List Nat) (fs : FS) (acc : List (Nat × List (Nat × List String)))
      (fs' : FS) (m : List (Nat × List (Nat × List String))),
      (∀ yv ∈ acc, ∃ files, yv.2 = [(yv.1, files)]) →
      f.fetch_subset_aux w years fs acc = (fs', .ok m) →
      ∀ yv ∈ m, ∃ files, yv.2 = [(yv.1, files)] := by
  intro years
  induction years with
  | nil =>
    intro fs acc fs' m hacc h
    simp only [FARSFetcher.fetch_subset_aux, Prod.mk.injEq, Except.ok.injEq] at h
    obtain ⟨-, h2⟩ := h
    exact h2 ▸ hacc
  | cons yr rest ih =>
    intro fs acc fs' m hacc h
    simp only [FARSFetcher.fetch_subset_aux] at h
    cases hfs : f.fetch_single w fs yr with
    | mk fs1 r =>
      simp only [hfs] at h
      cases r with
      | error e => simp at h
      | ok v =>
        have h' : f.fetch_subset_aux w rest fs1 (acc ++ [(yr, v)]) = (fs', .ok m) := h
        refine ih fs1 (acc ++ [(yr, v)]) fs' m ?_ h'
        intro yv hyv
        rcases List.mem_append.mp hyv with hl | hr
        · exact hacc yv hl
        · obtain ⟨files, hv, -⟩ := fetch_single_ok_shape f w fs yr fs1 v hfs
          simp only [List.mem_singleton] at hr
          subst hr
          exact ⟨files, by simpa using hv⟩

/-- Claim C2 counterexample: with only 2001 registered, a range fetch for
2000–2001 raises the missing-registry error of 2000 and returns no
per-year results, even though 2001 on its own would succeed. -/
theorem fetch_subset_abort_counterexample :
    (exYear.fetch_subset exWorldYear [] 2000 2001).2
      = .error (.fileNotFound "2000.zip: File could not be found in FARS registry.")
    ∧ (exYear.fetch_single exWorldYear [] 2001).2
      = .ok [(2001, ["cache/2001.unzip/x"])] :=
  ⟨rfl, rfl⟩

/-- Claim C2 (amended): `fetch_subset` applies `fetch_single` (and hence
`_get_file`) to the derived filename of every year in the inclusive range
in ascending order, but failures are not caught: when every year
succeeds the returned keys are exactly the range, and the first failing
year's error is raised for the whole call, aborting the remaining years
with no partial result. -/
theorem fetch_subset_eager_abort :
    (∀ (f : FARSFetcher) (w : World) (fs : FS) (s e : Nat) (fs' : FS)
        (m : List (Nat × List (Nat × List String))),
      f.fetch_subset w fs s e = (fs', .ok m) →
      m.map Prod.fst = yearRange s e)
    ∧ (∀ (f : FARSFetcher) (w : World) (fs : FS) (s e : Nat) (fs' : FS)
        (err : FetchError),
      s ≤ e →
      f.fetch_single w fs s = (fs', .error err) →
      f.fetch_subset w fs s e = (fs', .error err)) := by
  constructor
  · intro f w fs s e fs' m h
    have := fetch_subset_aux_ok_keys f w (yearRange s e) fs [] fs' m h
    simpa using this
  · intro f w fs s e fs' err hle hfail
    have hr : yearRange s e = s :: List.range' (s + 1) (e - s) := by
      have h1 : e + 1 - s = (e - s) + 1 := by omega
      rw [yearRange, h1, List.range'_succ]
    rw [FARSFetcher.fetch_subset, hr]
    simp [FARSFetcher.fetch_subset_aux, hfail]

/-- Witness for C2 (amended): the failure of year 2000 aborts the whole
range call with its error. -/
theorem fetch_subset_eager_abort_witness :
    exYear.fetch_subset exWorldYear [] 2000 2001
      = ([], .error (.fileNotFound "2000.zip: File could not be found in FARS registry.")) :=
  fetch_subset_eager_abort.2 exYear exWorldYear [] 2000 2001 []
    (.fileNotFound "2000.zip: File could not be found in FARS registry.")
    (by omega) rfl

/-- Claim C3 counterexample: with one unreachable and one valid registry
entry, `fetch_all` returns the valid entry's extracted files but records
nothing at all for the broken key — the failure is only printed, not
reported per key in the result. -/
theorem fetch_all_missing_failure_counterexample :
    alGet exWorldTwo.remote "u1" = none
    ∧ (exTwo.fetch_all exWorldTwo []).2 = [("good.zip", ["cache/good.unzip/a.csv"])]
    ∧ alGet (exTwo.fetch_all exWorldTwo []).2 "bad.zip" = none :=
  ⟨rfl, rfl, rfl⟩

/-- Claim C3 (amended): `fetch_all` is best-effort per registry entry: a
failing entry's exception is caught and the loop continues with the
remaining entries and an unchanged accumulator, the valid entry's result
is returned (so the call never raises for the whole batch), but failed
keys are silently absent from the returned mapping instead of being
recorded in it. -/
theorem fetch_all_best_effort :
    ((exTwo.fetch_all exWorldTwo []).2 = [("good.zip", ["cache/good.unzip/a.csv"])]
      ∧ alGet exWorldTwo.remote "u1" = none)
    ∧ (∀ (f : FARSFetcher) (w : World) (fs : FS) (acc : List (String × List String))
        (filename : String) (hu : String × String)
        (rest : List (String × (String × String))) (err : FetchError),
      (f.get_file w fs filename).result = .error err →
      f.fetch_all_aux w ((filename, hu) :: rest) fs acc
        = f.fetch_all_aux w rest (f.get_file w fs filename).fs acc) := by
  refine ⟨⟨rfl, rfl⟩, ?_⟩
  intro f w fs acc filename hu rest err hres
  cases hcs : containsSub "dict".data filename.data <;>
    simp [FARSFetcher.fetch_all_aux, hcs, hres]

/-- Witness for C3 (amended): the unreachable first entry is skipped and
iteration continues with the remaining registry entries. -/
theorem fetch_all_best_effort_witness :
    exTwo.fetch_all_aux exWorldTwo
        [("bad.zip", ("h1", "u1")), ("good.zip", ("h2", "u2"))] [] []
      = exTwo.fetch_all_aux exWorldTwo [("good.zip", ("h2", "u2"))]
          (exTwo.get_file exWorldTwo [] "bad.zip").fs [] :=
  fetch_all_best_effort.2 exTwo exWorldTwo [] [] "bad.zip" ("h1", "u1")
    [("good.zip", ("h2", "u2"))] (.networkError "u1") rfl

/-- Claim C8: the extraction directory is the deterministic function
`cache_path/<filename minus its final four characters>.unzip` of the
filename alone — for `2018.zip` always `cache_path/2018.unzip` — and
every file path returned by a successful `fetch_single` lies under that
directory. -/
theorem extract_dir_deterministic :
    (∀ (f : FARSFetcher) (filename : String),
      f.extractDirOf filename
        = f.cache_path ++ "/" ++ (filename.dropRight 4 ++ ".unzip"))
    ∧ (∀ f : FARSFetcher, (f.extractDirOf "2018.zip").data
        = f.cache_path.data ++ "/2018.unzip".data)
    ∧ (∀ (f : FARSFetcher) (w : World) (fs : FS) (year : Nat) (fs' : FS)
        (v : List (Nat × List String)),
      f.fetch_single w fs year = (fs', .ok v) →
      ∀ yr files, (yr, files) ∈ v → ∀ p ∈ files,
        strLeads (f.extractDirOf (toString year ++ ".zip") ++ "/") p = true) := by
  refine ⟨fun f filename => rfl, fun f => ?_, ?_⟩
  · simp only [FARSFetcher.extractDirOf, joinPath, String.data_append,
      List.append_assoc]
    rfl
  · intro f w fs year fs' v hfs yr files hmem p hp
    obtain ⟨files0, hv, hw⟩ := fetch_single_ok_shape f w fs year fs' v hfs
    subst hv
    simp only [List.mem_singleton, Prod.mk.injEq] at hmem
    obtain ⟨rfl, rfl⟩ := hmem
    exact walkFiles_mem _ _ _ (hw ▸ hp)

/-- Witness for C8 at the concrete 2001 fetch: the returned path lies
under `cache/2001.unzip`. -/
theorem extract_dir_deterministic_witness :
    strLeads (exYear.extractDirOf (toString 2001 ++ ".zip") ++ "/")
        "cache/2001.unzip/x" = true :=
  extract_dir_deterministic.2.2 exYear exWorldYear []
    2001 [("cache/2001.zip", [7]), ("cache/2001.unzip/x", [1])]
    [(2001, ["cache/2001.unzip/x"])] rfl 2001 ["cache/2001.unzip/x"]
    (by simp) "cache/2001.unzip/x" (by simp)

/-- Claim C10: the value `fetch_subset` stores under a successful year key
is itself the one-entry mapping from that same year to its extracted file
list — `fetch_single` already wraps the list in a dictionary keyed by the
year, so the overall result is nested. -/
theorem fetch_subset_nested_shape :
    (∀ (f : FARSFetcher) (w : World) (fs : FS) (year : Nat) (fs' : FS)
        (v : List (Nat × List String)),
      f.fetch_single w fs year = (fs', .ok v) → ∃ files, v = [(year, files)])
    ∧ (∀ (f : FARSFetcher) (w : World) (fs : FS) (s e : Nat) (fs' : FS)
        (m : List (Nat × List (Nat × List String))),
      f.fetch_subset w fs s e = (fs', .ok m) →
      ∀ yv ∈ m, ∃ files, yv.2 = [(yv.1, files)]) := by
  constructor
  · intro f w fs year fs' v h
    obtain ⟨files, hv, -⟩ := fetch_single_ok_shape f w fs year fs' v h
    exact ⟨files, hv⟩
  · intro f w fs s e fs' m h
    exact fetch_subset_aux_shape f w (yearRange s e) fs [] fs' m (by simp) h

/-- Witness for C10 at the concrete one-year range fetch: the stored
value is the nested singleton keyed by the same year. -/
theorem fetch_subset_nested_shape_witness :
    ∃ files,
      ((2001, [(2001, ["cache/2001.unzip/x"])])
          : Nat × List (Nat × List String)).2
        = [(((2001, [(2001, ["cache/2001.unzip/x"])])
            : Nat × List (Nat × List String)).1, files)] :=
  fetch_subset_nested_shape.2 exYear exWorldYear [] 2001 2001
    [("cache/2001.zip", [7]), ("cache/2001.unzip/x", [1])]
    [(2001, [(2001, ["cache/2001.unzip/x"])])] rfl
    (2001, [(2001, ["cache/2001.unzip/x"])]) (by simp)

end Fars
